import Mathlib

/-!
Shallow embedding of the network discovery and classification engine of
`telemetry-test` (`main.go`), together with theorems settling the spec
claims about it.

The Go code shells out to `arp -a` / `ping` and reads a YAML config file.
Those external effects are modelled by passing the command output (an
`Option String`, `none` when the command fails to execute) and the
parsed-config result (an `Except` value, `.error` when reading or
unmarshalling fails) as explicit arguments; everything downstream of those
inputs is translated line by line from `main.go`.

String primitives from Go's `strings` package are modelled over
`String.data` (the list of characters): `goFields` models
`strings.Fields`, `goSplitLines` models `strings.Split(s, "\n")`,
`goTrimParens` models `strings.Trim(s, "()")`, `goContains` models
`strings.Contains`, `goStartsWith` models `strings.HasPrefix`, and
`goToLower` models `strings.ToLower` (on the ASCII letters, the only case
distinction the inputs at hand can exhibit).
-/

namespace Telemetry

/-- Accumulator-style worker for `goFields`: splits a character list around
maximal runs of whitespace, dropping empty pieces, like Go `strings.Fields`. -/
def wordsAux : List Char → List Char → List (List Char)
  | [], acc => if acc = [] then [] else [acc.reverse]
  | c :: cs, acc =>
    if c.isWhitespace then
      if acc = [] then wordsAux cs [] else acc.reverse :: wordsAux cs []
    else wordsAux cs (c :: acc)

/-- Model of Go `strings.Fields`: whitespace-delimited fields of a string. -/
def goFields (s : String) : List String :=
  (wordsAux s.data []).map String.mk

/-- Accumulator-style worker for `goSplitLines`: split at each newline
character, keeping empty pieces, like Go `strings.Split(s, "\n")`. -/
def splitNlAux : List Char → List Char → List (List Char)
  | [], acc => [acc.reverse]
  | c :: cs, acc =>
    if c = '\n' then acc.reverse :: splitNlAux cs [] else splitNlAux cs (c :: acc)

/-- Model of Go `strings.Split(s, "\n")`. -/
def goSplitLines (s : String) : List String :=
  (splitNlAux s.data []).map String.mk

/-- Model of Go `strings.Trim(s, "()")`: remove leading and trailing
parentheses. -/
def goTrimParens (s : String) : String :=
  String.mk (((s.data.dropWhile fun c => c = '(' ∨ c = ')').reverse.dropWhile
    fun c => c = '(' ∨ c = ')').reverse)

/-- Model of Go `strings.Contains s sub`. -/
def goContains (s sub : String) : Bool := decide (sub.data <:+: s.data)

/-- Model of Go `strings.HasPrefix s pre`: does `s` start with `pre`? -/
def goStartsWith (s pre : String) : Bool := pre.data.isPrefixOf s.data

/-- ASCII upper-to-lower letter table used to model Go `strings.ToLower`. -/
def asciiLowerTable : List (Char × Char) :=
  [('A','a'), ('B','b'), ('C','c'), ('D','d'), ('E','e'), ('F','f'), ('G','g'),
   ('H','h'), ('I','i'), ('J','j'), ('K','k'), ('L','l'), ('M','m'), ('N','n'),
   ('O','o'), ('P','p'), ('Q','q'), ('R','r'), ('S','s'), ('T','t'), ('U','u'),
   ('V','v'), ('W','w'), ('X','x'), ('Y','y'), ('Z','z')]

/-- Lower-case one character (ASCII letters only). -/
def goCharToLower (c : Char) : Char :=
  ((asciiLowerTable.find? fun p => p.1 = c).map Prod.snd).getD c

/-- Model of Go `strings.ToLower` on ASCII data. -/
def goToLower (s : String) : String :=
  String.mk (s.data.map goCharToLower)

/-- Device-type rule, from `DeviceTypeRule` in `main.go`: a type label, an
ordered list of hardware (MAC) prefixes and an ordered list of hostname
keywords. -/
structure DeviceTypeRule where
  type : String
  MACPrefixes : List String
  HostnameKeywords : List String
deriving DecidableEq

/-- Configuration, from `Config` in `main.go`: the ordered rule set. -/
structure Config where
  DeviceTypes : List DeviceTypeRule
deriving DecidableEq

/-- Failure of the classification rule source, modelling the two error
returns of `detectDeviceType`: `os.ReadFile` failure or `yaml.Unmarshal`
failure. -/
inductive CfgErr where
  | readErr
  | parseErr
deriving DecidableEq

/-- Rule loop of `detectDeviceType` (`main.go` lines 157-168): for each rule
in order, try the MAC prefixes, then the hostname keywords; the first rule
with a matcher that succeeds supplies the label. -/
def detectRules : List DeviceTypeRule → String → String → Option String
  | [], _, _ => none
  | rule :: rest, mac, hostname =>
    if rule.MACPrefixes.any (fun p => goStartsWith mac p) then some rule.type
    else if rule.HostnameKeywords.any (fun k => goContains hostname k) then some rule.type
    else detectRules rest mac hostname

/-- Model of `detectDeviceType` (`main.go` lines 125-170).  The result of
reading and parsing the config file is passed as `src`; on failure the
function returns `"unknown"` with the error.  Otherwise both inputs are
lower-cased and the rules are scanned in order; if no rule matches the
result is `"unknown"` with no error. -/
def detectDeviceType (src : Except CfgErr Config) (mac hostname : String) :
    String × Option CfgErr :=
  match src with
  | .error e => ("unknown", some e)
  | .ok cfg =>
    match detectRules cfg.DeviceTypes (goToLower mac) (goToLower hostname) with
    | some t => (t, none)
    | none => ("unknown", none)

/-- Insert into a Go map modelled as an association list in first-insertion
order: overwrite the value when the key is present, append otherwise. -/
def mapInsert (m : List (String × String)) (k v : String) : List (String × String) :=
  if m.any (fun p => p.1 = k) then
    m.map (fun p => if p.1 = k then (k, v) else p)
  else m ++ [(k, v)]

/-- Per-line parse step of `getARPTable` (`main.go` lines 86-93): a line
with at least four whitespace-delimited fields yields the pair of its second
field with surrounding parentheses trimmed and its fourth field; a shorter
line yields nothing. -/
def parseARPLine (line : String) : Option (String × String) :=
  match goFields line with
  | _ :: second :: _ :: fourth :: _ => some (goTrimParens second, fourth)
  | _ => none

/-- Model of `getARPTable` (`main.go` lines 77-95): `out` is the output of
the `arp -a` command, `none` when the command failed to execute (in which
case the Go function logs and returns `nil`, an empty map). -/
def getARPTable (out : Option String) : List (String × String) :=
  match out with
  | none => []
  | some o =>
    (goSplitLines o).foldl
      (fun m line =>
        match parseARPLine line with
        | some (k, v) => mapInsert m k v
        | none => m) []

/-- Failure modes of `resolveHostname`: the `arp -a` command failed to run,
or no line of its output contains the queried address. -/
inductive ResolveErr where
  | runFailed
  | notFound
deriving DecidableEq

/-- Line scan of `resolveHostname` (`main.go` lines 108-120): return the
first whitespace-delimited field of the first line containing `ip` (the
sentinel `"<unknown>"` when that field is the placeholder `"?"`); a
containing line with no fields is passed over. -/
def resolveLines : List String → String → Option String
  | [], _ => none
  | line :: rest, ip =>
    if goContains line ip then
      match goFields line with
      | [] => resolveLines rest ip
      | w :: _ => if w ≠ "?" then some w else some "<unknown>"
    else resolveLines rest ip

/-- Model of `resolveHostname` (`main.go` lines 97-123): `out` is the output
of the re-invoked `arp -a` command (`none` when it fails to run). -/
def resolveHostname (out : Option String) (ip : String) : Except ResolveErr String :=
  match out with
  | none => .error .runFailed
  | some o =>
    match resolveLines (goSplitLines o) ip with
    | some h => .ok h
    | none => .error .notFound

instance {ε α : Type} [DecidableEq ε] [DecidableEq α] : DecidableEq (Except ε α) := fun x y =>
  match x, y with
  | .ok a, .ok b => decidable_of_iff (a = b) (by simp)
  | .error a, .error b => decidable_of_iff (a = b) (by simp)
  | .ok _, .error _ => isFalse (fun h => Except.noConfusion h)
  | .error _, .ok _ => isFalse (fun h => Except.noConfusion h)

/-- Inventory record published for one neighbor-table entry: the four label
values of the `wifi_connected_devices` gauge vector. -/
structure DeviceRecord where
  IPAddress : String
  HardwareAddress : String
  Hostname : String
  DeviceTypeLabel : String
deriving DecidableEq

/-- Body of the per-entry loop of `scanAndUpdateMetrics` (`main.go` lines
185-196): resolve the hostname (Go leaves the string at its zero value `""`
when `resolveHostname` returns an error, which is merely printed), classify,
and build the label tuple for the published gauge. -/
def processEntry (resOut : Option String) (cfgSrc : Except CfgErr Config)
    (ip mac : String) : DeviceRecord :=
  let hostname := match resolveHostname resOut ip with
    | .ok h => h
    | .error _ => ""
  let deviceType := (detectDeviceType cfgSrc mac hostname).1
  ⟨ip, mac, hostname, deviceType⟩

/-- Model of one discovery cycle, `scanAndUpdateMetrics` (`main.go` lines
172-197).  The published inventory is a finite set of (label tuple, value)
pairs.  `deviceDetails.Reset()` discards the previous inventory `prev`;
then each entry of the neighbor table parsed from `tblOut` is published
with value `1`, hostnames being resolved against the re-queried output
`resOut` and types against the config source `cfgSrc`.  The `ping` fan-out
only perturbs the OS neighbor cache and is not observable here beyond
`tblOut` itself. -/
def scanAndUpdateMetrics (tblOut resOut : Option String)
    (cfgSrc : Except CfgErr Config) (_prev : Finset (DeviceRecord × Nat)) :
    Finset (DeviceRecord × Nat) :=
  (getARPTable tblOut).foldl
    (fun acc e => insert (processEntry resOut cfgSrc e.1 e.2, 1) acc) ∅

/-- External inputs of one discovery cycle. -/
structure CycleIn where
  tblOut : Option String
  resOut : Option String
  cfgSrc : Except CfgErr Config

/-- Iterate discovery cycles over a list of per-cycle external inputs, as
the scan goroutine of `main` does every 30 seconds. -/
def scanCycles (ins : List CycleIn) (s0 : Finset (DeviceRecord × Nat)) :
    Finset (DeviceRecord × Nat) :=
  ins.foldl (fun s i => scanAndUpdateMetrics i.tblOut i.resOut i.cfgSrc s) s0

/-! ### Lemmas about case normalization -/

lemma goCharToLower_idem (c : Char) : goCharToLower (goCharToLower c) = goCharToLower c := by
  have key : ∀ x ∈ asciiLowerTable.map Prod.snd,
      asciiLowerTable.find? (fun p => p.1 = x) = none := by decide
  cases hf : asciiLowerTable.find? (fun p => p.1 = c) with
  | none => simp [goCharToLower, hf]
  | some pr =>
    have hnone := key pr.2 (List.mem_map_of_mem Prod.snd (List.mem_of_find?_eq_some hf))
    simp [goCharToLower, hf, hnone]

lemma goToLower_idem (s : String) : goToLower (goToLower s) = goToLower s := by
  show String.mk (List.map goCharToLower (List.map goCharToLower s.data)) =
    String.mk (List.map goCharToLower s.data)
  rw [List.map_map]
  exact congrArg String.mk
    (List.map_congr_left fun c _ => goCharToLower_idem c)

/-- C1: the claim that classification is case-insensitive on the rule side
fails: `detectDeviceType` lower-cases only its inputs, so a rule whose
hardware prefix is spelled `"AA:BB:CC"` does not match the input
`"aa:bb:cc:11:22:33"`, and the result is `"unknown"` rather than the rule's
label `"apple"`. -/
theorem classify_rule_case_counterexample :
    detectDeviceType (.ok ⟨[⟨"apple", ["AA:BB:CC"], []⟩]⟩) "aa:bb:cc:11:22:33" "somehost"
      = ("unknown", none) ∧
    (detectDeviceType (.ok ⟨[⟨"apple", ["AA:BB:CC"], []⟩]⟩) "aa:bb:cc:11:22:33" "somehost").1
      ≠ "apple" := by decide

/-- C1 (amended): classification is case-insensitive on the input side only:
`detectDeviceType` lower-cases the hardware address and the hostname before
comparison (so its result is invariant under lower-casing the inputs, and
`Classify("AC:BC:32:11:22:33", "Johns-iPhone")` matches a rule with
lower-case prefix `"ac:bc:32"`), while the rules' prefixes and keywords are
compared verbatim, without case normalization. -/
theorem classify_input_case_insensitive :
    (∀ (src : Except CfgErr Config) (mac hostname : String),
        detectDeviceType src (goToLower mac) (goToLower hostname) =
          detectDeviceType src mac hostname) ∧
    detectDeviceType (.ok ⟨[⟨"apple", ["ac:bc:32"], ["iphone"]⟩]⟩)
        "AC:BC:32:11:22:33" "Johns-iPhone" = ("apple", none) := by
  constructor
  · intro src mac hostname
    cases src with
    | error e => rfl
    | ok cfg => simp [detectDeviceType, goToLower_idem]
  · decide

/-! ### Lemmas about fields and the hostname resolver -/

lemma wordsAux_ne_nil_of_acc (l : List Char) (acc : List Char) (h : acc ≠ []) :
    wordsAux l acc ≠ [] := by
  induction l generalizing acc with
  | nil => simp [wordsAux, h]
  | cons c cs ih =>
    by_cases hc : c.isWhitespace
    · simp [wordsAux, hc, h]
    · simpa [wordsAux, hc] using ih (c :: acc) (by simp)

lemma wordsAux_ne_nil (l : List Char) (h : ∃ c ∈ l, ¬ c.isWhitespace) :
    ∀ acc, wordsAux l acc ≠ [] := by
  induction l with
  | nil => simp at h
  | cons c cs ih =>
    intro acc
    by_cases hc : c.isWhitespace
    · have hcs : ∃ x ∈ cs, ¬ x.isWhitespace := by
        obtain ⟨x, hx, hxw⟩ := h
        rcases List.mem_cons.1 hx with rfl | hx'
        · exact absurd hc hxw
        · exact ⟨x, hx', hxw⟩
      by_cases ha : acc = []
      · simpa [wordsAux, hc, ha] using ih hcs []
      · simp [wordsAux, hc, ha]
    · simpa [wordsAux, hc] using wordsAux_ne_nil_of_acc cs (c :: acc) (by simp)

lemma goFields_ne_nil (s : String) (h : ∃ c ∈ s.data, ¬ c.isWhitespace) :
    goFields s ≠ [] := by
  simpa [goFields] using wordsAux_ne_nil s.data h []

lemma exists_nonws_of_goContains (line ip : String) (hc : goContains line ip = true)
    (h : ∃ c ∈ ip.data, ¬ c.isWhitespace) : ∃ c ∈ line.data, ¬ c.isWhitespace := by
  obtain ⟨c, hcm, hcw⟩ := h
  exact ⟨c, (of_decide_eq_true hc).subset hcm, hcw⟩

lemma resolveLines_of_find? (lines : List String) (ip ℓ : String)
    (hfind : lines.find? (fun l => goContains l ip) = some ℓ)
    (hf : goFields ℓ ≠ []) :
    resolveLines lines ip =
      some (if (goFields ℓ).headD "" ≠ "?" then (goFields ℓ).headD "" else "<unknown>") := by
  induction lines with
  | nil => simp at hfind
  | cons l rest ih =>
    simp only [List.find?_cons] at hfind
    by_cases hc : goContains l ip = true
    · simp only [hc] at hfind
      obtain rfl : l = ℓ := by simpa using hfind
      cases he : goFields l with
      | nil => exact absurd he hf
      | cons w ws => by_cases hw : w = "?" <;> simp [resolveLines, hc, he, hw]
    · have hc' : goContains l ip = false := by simpa using hc
      simp only [hc'] at hfind
      simpa [resolveLines, hc'] using ih hfind

lemma resolveLines_of_not_contained (lines : List String) (ip : String)
    (h : ∀ l ∈ lines, goContains l ip = false) :
    resolveLines lines ip = none := by
  induction lines with
  | nil => rfl
  | cons l rest ih =>
    have h0 := h l (List.mem_cons_self l rest)
    simpa [resolveLines, h0] using ih fun x hx => h x (List.mem_cons_of_mem l hx)

/-- C6: when some line of the neighbor-table output contains the queried
address, `resolveHostname` returns without error the first
whitespace-delimited field of the first such line, unless that field is the
placeholder `"?"`, in which case it returns the sentinel `"<unknown>"`.
The address is assumed to have at least one non-whitespace character, as
every real address does; this guarantees the first containing line has a
first field at all. -/
theorem resolve_found_hostname (o ip ℓ : String)
    (hip : ∃ c ∈ ip.data, ¬ c.isWhitespace)
    (hfind : (goSplitLines o).find? (fun l => goContains l ip) = some ℓ) :
    resolveHostname (some o) ip =
      .ok (if (goFields ℓ).headD "" ≠ "?" then (goFields ℓ).headD "" else "<unknown>") := by
  have hcl := List.find?_some hfind
  have hf : goFields ℓ ≠ [] :=
    goFields_ne_nil ℓ (exists_nonws_of_goContains ℓ ip hcl hip)
  simp [resolveHostname, resolveLines_of_find? (goSplitLines o) ip ℓ hfind hf]

/-- Witness for `resolve_found_hostname`: on the output line
`"myhost (192.168.1.5) at 8:aa:bb:cc:dd:ee on en0"` the query for
`192.168.1.5` resolves to `myhost`. -/
theorem resolve_found_hostname_witness :
    resolveHostname (some "myhost (192.168.1.5) at 8:aa:bb:cc:dd:ee on en0") "192.168.1.5"
      = .ok "myhost" := by
  have h := resolve_found_hostname "myhost (192.168.1.5) at 8:aa:bb:cc:dd:ee on en0"
    "192.168.1.5" "myhost (192.168.1.5) at 8:aa:bb:cc:dd:ee on en0"
    (by decide) (by decide)
  rw [h]; decide

/-- C7: when no line of the neighbor-table output contains the queried
address, `resolveHostname` returns the not-found error (and, being a total
function, does not crash). -/
theorem resolve_not_found (o ip : String)
    (h : ∀ line ∈ goSplitLines o, goContains line ip = false) :
    resolveHostname (some o) ip = .error .notFound := by
  simp [resolveHostname, resolveLines_of_not_contained (goSplitLines o) ip h]

/-- Witness for `resolve_not_found`: querying `192.168.1.9` against an
output that only mentions `192.168.1.7` yields the not-found error. -/
theorem resolve_not_found_witness :
    resolveHostname (some "myhost (192.168.1.7) at 8:aa:bb:cc:dd:ee on en0") "192.168.1.9"
      = .error .notFound :=
  resolve_not_found "myhost (192.168.1.7) at 8:aa:bb:cc:dd:ee on en0" "192.168.1.9"
    (by decide)

/-- C10: `resolveHostname` matches the address by substring containment,
not exact field equality: with the line for the longer address
`192.168.1.50` first, querying `192.168.1.5` returns `fifty-host`, the
hostname of the `192.168.1.50` line, even though a line for exactly
`192.168.1.5` (hostname `five-host`) comes later. -/
theorem resolve_substring_match :
    resolveHostname
        (some ("fifty-host (192.168.1.50) at aa:bb:cc:dd:ee:01 on en0\nfive-host (192.168.1.5) at aa:bb:cc:dd:ee:02 on en0"))
        "192.168.1.5" = .ok "fifty-host" ∧
    (goFields "five-host (192.168.1.5) at aa:bb:cc:dd:ee:02 on en0").headD "" = "five-host" := by
  decide

/-- C5: when the neighbor-table command fails to execute (`out = none`),
`getARPTable` returns the empty mapping rather than an error, and the
discovery cycle consequently publishes an empty inventory instead of
aborting. -/
theorem arp_failure_empty_table :
    getARPTable none = [] ∧
    ∀ (resOut : Option String) (cfgSrc : Except CfgErr Config)
      (prev : Finset (DeviceRecord × Nat)),
      scanAndUpdateMetrics none resOut cfgSrc prev = ∅ :=
  ⟨rfl, fun _ _ _ => rfl⟩

/-! ### Ordering semantics of the rule engine -/

/-- One matcher of a rule, tagged with the rule's type label: either a
hardware-prefix matcher or a hostname-keyword matcher.  Used to state the
evaluation order of `detectRules` as a claim about a single flattened,
ordered matcher list. -/
inductive Matcher where
  | hw (label p : String)
  | hostKw (label k : String)
deriving DecidableEq

/-- Type label carried by a matcher. -/
def Matcher.label : Matcher → String
  | .hw l _ => l
  | .hostKw l _ => l

/-- Does a matcher succeed on the (already case-normalized) inputs? -/
def Matcher.hits (mac hostname : String) : Matcher → Bool
  | .hw _ p => goStartsWith mac p
  | .hostKw _ k => goContains hostname k

/-- All matchers of a rule set in evaluation order: rules in declared order,
and within a rule the hardware prefixes (in declared order) before the
hostname keywords (in declared order). -/
def orderedMatchers (rules : List DeviceTypeRule) : List Matcher :=
  rules.flatMap fun r =>
    r.MACPrefixes.map (Matcher.hw r.type) ++ r.HostnameKeywords.map (Matcher.hostKw r.type)

/-- Does a rule match the (already case-normalized) inputs, by prefix or
keyword? -/
def ruleHit (r : DeviceTypeRule) (mac hostname : String) : Bool :=
  r.MACPrefixes.any (fun p => goStartsWith mac p) ||
    r.HostnameKeywords.any (fun k => goContains hostname k)

lemma Matcher.hits_hw (mac hostname t p : String) :
    Matcher.hits mac hostname (.hw t p) = goStartsWith mac p := rfl

lemma Matcher.hits_hostKw (mac hostname t k : String) :
    Matcher.hits mac hostname (.hostKw t k) = goContains hostname k := rfl

lemma find?_label_map (l : List String) (f : String → Matcher) (q : Matcher → Bool)
    (t : String) (hl : ∀ x, (f x).label = t) :
    ((l.map f).find? q).map Matcher.label =
      if l.any (fun x => q (f x)) then some t else none := by
  induction l with
  | nil => simp
  | cons x xs ih =>
    simp only [List.map_cons, List.find?_cons, List.any_cons]
    by_cases h : q (f x) = true
    · simp [h, hl]
    · have h' : q (f x) = false := by simpa using h
      simp only [h', Bool.false_or]
      exact ih

lemma detectRules_eq_find? (rules : List DeviceTypeRule) (mac hostname : String) :
    detectRules rules mac hostname =
      ((orderedMatchers rules).find? (Matcher.hits mac hostname)).map Matcher.label := by
  induction rules with
  | nil => rfl
  | cons r rs ih =>
    have hA := find?_label_map r.MACPrefixes (Matcher.hw r.type)
      (Matcher.hits mac hostname) r.type (fun _ => rfl)
    have hB := find?_label_map r.HostnameKeywords (Matcher.hostKw r.type)
      (Matcher.hits mac hostname) r.type (fun _ => rfl)
    simp only [Matcher.hits_hw] at hA
    simp only [Matcher.hits_hostKw] at hB
    have hsplit : orderedMatchers (r :: rs) =
        (r.MACPrefixes.map (Matcher.hw r.type) ++
          r.HostnameKeywords.map (Matcher.hostKw r.type)) ++ orderedMatchers rs := by
      simp [orderedMatchers]
    rw [hsplit, List.find?_append, List.find?_append]
    by_cases h1 : r.MACPrefixes.any (fun p => goStartsWith mac p) = true
    · rw [if_pos h1] at hA
      obtain ⟨m, hm, hml⟩ := Option.map_eq_some'.1 hA
      simp [detectRules, h1, hm, hml]
    · have h1' : r.MACPrefixes.any (fun p => goStartsWith mac p) = false := by simpa using h1
      simp only [h1', Bool.false_eq_true, if_false] at hA
      have hAnone : (r.MACPrefixes.map (Matcher.hw r.type)).find?
          (Matcher.hits mac hostname) = none := Option.map_eq_none'.1 hA
      by_cases h2 : r.HostnameKeywords.any (fun k => goContains hostname k) = true
      · rw [if_pos h2] at hB
        obtain ⟨m, hm, hml⟩ := Option.map_eq_some'.1 hB
        simp [detectRules, h1', h2, hAnone, hm, hml]
      · have h2' : r.HostnameKeywords.any (fun k => goContains hostname k) = false := by
          simpa using h2
        simp only [h2', Bool.false_eq_true, if_false] at hB
        have hBnone : (r.HostnameKeywords.map (Matcher.hostKw r.type)).find?
            (Matcher.hits mac hostname) = none := Option.map_eq_none'.1 hB
        simp [detectRules, h1', h2', hAnone, hBnone, ih]

/-- C3: first-match-wins evaluation order.  First conjunct: classification
(on the case-normalized inputs) equals the label of the first hit in the
flattened matcher list `orderedMatchers`, which lists rules in declared
order and, within a rule, hardware prefixes before hostname keywords, each
in declared order.  Second conjunct: when a rule matches and every
earlier-declared rule fails to match, the rule loop returns the label of
that rule, whatever later rules would do — so of two matching rules the
earlier one always supplies the label. -/
theorem rule_evaluation_order :
    (∀ (cfg : Config) (mac hostname : String),
        detectDeviceType (.ok cfg) mac hostname =
          (match (orderedMatchers cfg.DeviceTypes).find?
              (Matcher.hits (goToLower mac) (goToLower hostname)) with
           | some m => (m.label, (none : Option CfgErr))
           | none => ("unknown", none))) ∧
    (∀ (rs1 : List DeviceTypeRule) (r : DeviceTypeRule) (rs2 : List DeviceTypeRule)
        (mac hostname : String),
        ruleHit r mac hostname = true →
        (∀ r' ∈ rs1, ruleHit r' mac hostname = false) →
        detectRules (rs1 ++ r :: rs2) mac hostname = some r.type) := by
  constructor
  · intro cfg mac hostname
    rw [detectDeviceType, detectRules_eq_find?]
    cases (orderedMatchers cfg.DeviceTypes).find?
        (Matcher.hits (goToLower mac) (goToLower hostname)) with
    | none => rfl
    | some m => rfl
  · intro rs1 r rs2 mac hostname hr hmiss
    induction rs1 with
    | nil =>
      rcases Bool.or_eq_true_iff.1 hr with h1 | h2
      · simp [detectRules, h1]
      · simp [detectRules, h2]
    | cons r' rest ih =>
      have h0 : ruleHit r' mac hostname = false := hmiss r' (List.mem_cons_self r' rest)
      have h0' := Bool.or_eq_false_iff.1 h0
      simpa [detectRules, h0'.1, h0'.2] using
        ih fun x hx => hmiss x (List.mem_cons_of_mem r' hx)

/-- Witness for `rule_evaluation_order`: with two rules `A` and `B` both
matching the hardware address `aa:bb:cc:11`, the rule loop returns the label
of the earlier rule `A`. -/
theorem rule_evaluation_order_witness :
    detectRules [⟨"A", ["aa:bb:cc"], []⟩, ⟨"B", ["aa:bb:cc"], []⟩] "aa:bb:cc:11" "h"
      = some "A" := by
  have h := rule_evaluation_order.2 [] ⟨"A", ["aa:bb:cc"], []⟩ [⟨"B", ["aa:bb:cc"], []⟩]
    "aa:bb:cc:11" "h" (by decide) (by simp)
  simpa using h

lemma detectRules_eq_none_of_miss (rules : List DeviceTypeRule) (mac hostname : String)
    (h : ∀ r ∈ rules, ruleHit r mac hostname = false) :
    detectRules rules mac hostname = none := by
  induction rules with
  | nil => rfl
  | cons r rs ih =>
    have h0 := Bool.or_eq_false_iff.1 (h r (List.mem_cons_self r rs))
    simpa [detectRules, h0.1, h0.2] using ih fun x hx => h x (List.mem_cons_of_mem r hx)

/-- C8: the `"unknown"` fallback of the classifier.  When the rule source is
read and parsed successfully but no rule matches the case-normalized
inputs, `detectDeviceType` returns `("unknown", none)`; when the rule
source fails to read or parse, it returns `"unknown"` together with the
underlying error, so the caller can still publish a degraded record. -/
theorem classify_unknown_fallback :
    (∀ (cfg : Config) (mac hostname : String),
        (∀ r ∈ cfg.DeviceTypes, ruleHit r (goToLower mac) (goToLower hostname) = false) →
        detectDeviceType (.ok cfg) mac hostname = ("unknown", none)) ∧
    (∀ (e : CfgErr) (mac hostname : String),
        detectDeviceType (.error e) mac hostname = ("unknown", some e)) := by
  constructor
  · intro cfg mac hostname h
    rw [detectDeviceType, detectRules_eq_none_of_miss cfg.DeviceTypes _ _ h]
  · intro e mac hostname
    rfl

/-- Witness for `classify_unknown_fallback`: the spec's end-to-end example
input `(00:00:00:00:00:00, unknown-host)` matches no rule of the apple rule
set and classifies as `"unknown"` with no error. -/
theorem classify_unknown_fallback_witness :
    detectDeviceType (.ok ⟨[⟨"apple", ["ac:bc:32"], ["iphone"]⟩]⟩)
      "00:00:00:00:00:00" "unknown-host" = ("unknown", none) :=
  classify_unknown_fallback.1 ⟨[⟨"apple", ["ac:bc:32"], ["iphone"]⟩]⟩
    "00:00:00:00:00:00" "unknown-host" (by decide)

/-! ### The published inventory -/

lemma foldl_insert_map_eq {α β : Type} [DecidableEq β] (g : α → β) (l : List α)
    (s : Finset β) :
    l.foldl (fun acc e => insert (g e) acc) s = s ∪ (l.map g).toFinset := by
  induction l generalizing s with
  | nil => simp
  | cons x xs ih => simp [ih, Finset.insert_union, Finset.union_insert]

lemma scan_eq_toFinset (tblOut resOut : Option String) (cfgSrc : Except CfgErr Config)
    (prev : Finset (DeviceRecord × Nat)) :
    scanAndUpdateMetrics tblOut resOut cfgSrc prev =
      ((getARPTable tblOut).map (fun e => (processEntry resOut cfgSrc e.1 e.2, 1))).toFinset := by
  have h := foldl_insert_map_eq (fun e : String × String => (processEntry resOut cfgSrc e.1 e.2, 1))
    (getARPTable tblOut) ∅
  simpa [scanAndUpdateMetrics] using h

lemma mapInsert_keys (m : List (String × String)) (k v : String) :
    (mapInsert m k v).map Prod.fst =
      if m.any (fun p => p.1 = k) then m.map Prod.fst else m.map Prod.fst ++ [k] := by
  unfold mapInsert
  by_cases h : m.any (fun p => p.1 = k) = true
  · rw [if_pos h, if_pos h, List.map_map]
    apply List.map_congr_left
    intro p _
    by_cases hp : p.1 = k
    · simp [hp]
    · simp [hp]
  · rw [if_neg h, if_neg h, List.map_append]
    rfl

lemma mapInsert_keys_nodup (m : List (String × String)) (k v : String)
    (h : (m.map Prod.fst).Nodup) : ((mapInsert m k v).map Prod.fst).Nodup := by
  rw [mapInsert_keys]
  by_cases hc : m.any (fun p => p.1 = k) = true
  · rwa [if_pos hc]
  · rw [if_neg hc]
    have hk : k ∉ m.map Prod.fst := by
      intro hmem
      obtain ⟨p, hp, hpk⟩ := List.mem_map.1 hmem
      exact hc (List.any_eq_true.2 ⟨p, hp, by simpa using hpk⟩)
    simp [List.nodup_append, h, hk]

lemma getARPTable_keys_nodup (out : Option String) :
    ((getARPTable out).map Prod.fst).Nodup := by
  cases out with
  | none => simp [getARPTable]
  | some o =>
    suffices h : ∀ (lines : List String) (m : List (String × String)),
        (m.map Prod.fst).Nodup →
        ((lines.foldl (fun m line => match parseARPLine line with
            | some (k, v) => mapInsert m k v
            | none => m) m).map Prod.fst).Nodup by
      simpa [getARPTable] using h (goSplitLines o) [] (by simp)
    intro lines
    induction lines with
    | nil => exact fun m hm => hm
    | cons line rest ih =>
      intro m hm
      cases hp : parseARPLine line with
      | none => simpa [hp] using ih m hm
      | some kv =>
        obtain ⟨k, v⟩ := kv
        simpa [hp] using ih (mapInsert m k v) (mapInsert_keys_nodup m k v hm)

lemma scan_card (tblOut resOut : Option String) (cfgSrc : Except CfgErr Config)
    (prev : Finset (DeviceRecord × Nat)) :
    (scanAndUpdateMetrics tblOut resOut cfgSrc prev).card = (getARPTable tblOut).length := by
  rw [scan_eq_toFinset]
  have hkeys := getARPTable_keys_nodup tblOut
  have hmap : (((getARPTable tblOut).map
      (fun e => (processEntry resOut cfgSrc e.1 e.2, (1 : Nat)))).map
        (fun x => x.1.IPAddress)).Nodup := by
    rw [List.map_map]
    have hcomp : ((fun x : DeviceRecord × Nat => x.1.IPAddress) ∘
        (fun e : String × String => (processEntry resOut cfgSrc e.1 e.2, (1 : Nat)))) =
          Prod.fst := by
      funext e
      rfl
    rw [hcomp]
    exact hkeys
  rw [List.toFinset_card_of_nodup (List.Nodup.of_map _ hmap), List.length_map]

/-- C2: the claim that a record published after a failed hostname resolution
carries the sentinel `"<unknown>"` fails: on a neighbor table containing
`192.168.1.5` whose re-queried resolver output is empty, resolution returns
the not-found error and the cycle publishes the record with `Hostname = ""`
(Go's zero value), not `"<unknown>"`. -/
theorem publish_on_resolve_error_counterexample :
    resolveHostname (some "") "192.168.1.5" = .error .notFound ∧
    scanAndUpdateMetrics (some "? (192.168.1.5) at 8:aa:bb:cc:dd:ee on en0") (some "")
        (.ok ⟨[]⟩) ∅ =
      {(⟨"192.168.1.5", "8:aa:bb:cc:dd:ee", "", "unknown"⟩, 1)} ∧
    ("" : String) ≠ "<unknown>" := by decide

/-- C2 (amended): for every neighbor-table entry the discovery cycle still
publishes a record even when hostname resolution fails, but the published
record's `Hostname` field is then the empty string (the resolver's Go zero
value), not the sentinel `"<unknown>"`. -/
theorem publish_on_resolve_error (tblOut resOut : Option String)
    (cfgSrc : Except CfgErr Config) (prev : Finset (DeviceRecord × Nat))
    (ip mac : String) (e : ResolveErr)
    (hmem : (ip, mac) ∈ getARPTable tblOut)
    (herr : resolveHostname resOut ip = .error e) :
    (processEntry resOut cfgSrc ip mac, 1) ∈ scanAndUpdateMetrics tblOut resOut cfgSrc prev ∧
    (processEntry resOut cfgSrc ip mac).Hostname = "" := by
  constructor
  · rw [scan_eq_toFinset, List.mem_toFinset]
    exact List.mem_map.2 ⟨(ip, mac), hmem, rfl⟩
  · simp [processEntry, herr]

/-- Witness for `publish_on_resolve_error`: the entry for `192.168.1.5` with
empty resolver output is published, with empty hostname. -/
theorem publish_on_resolve_error_witness :
    (processEntry (some "") (.ok ⟨[]⟩) "192.168.1.5" "8:aa:bb:cc:dd:ee", 1) ∈
        scanAndUpdateMetrics (some "? (192.168.1.5) at 8:aa:bb:cc:dd:ee on en0") (some "")
          (.ok ⟨[]⟩) ∅ ∧
    (processEntry (some "") (.ok ⟨[]⟩) "192.168.1.5" "8:aa:bb:cc:dd:ee").Hostname = "" :=
  publish_on_resolve_error (some "? (192.168.1.5) at 8:aa:bb:cc:dd:ee on en0") (some "")
    (.ok ⟨[]⟩) ∅ "192.168.1.5" "8:aa:bb:cc:dd:ee" .notFound (by decide) (by decide)

/-- C9: idempotent clearing.  Each cycle starts from the empty inventory
(`Reset`), so after any nonempty sequence of discovery cycles the published
inventory's cardinality equals exactly the number of entries of the most
recent neighbor-table snapshot, with one record of value 1 per entry, and
never accumulates entries from earlier snapshots. -/
theorem idempotent_clearing (ins : List CycleIn) (s0 : Finset (DeviceRecord × Nat))
    (h : ins ≠ []) :
    (scanCycles ins s0).card = (getARPTable (ins.getLast h).tblOut).length := by
  revert h
  induction ins generalizing s0 with
  | nil => exact fun h => absurd rfl h
  | cons i is ih =>
    intro h
    cases is with
    | nil =>
      show (scanAndUpdateMetrics i.tblOut i.resOut i.cfgSrc s0).card = _
      rw [List.getLast_singleton]
      exact scan_card i.tblOut i.resOut i.cfgSrc s0
    | cons j js =>
      have hne : j :: js ≠ [] := List.cons_ne_nil j js
      have hlast : (i :: j :: js).getLast h = (j :: js).getLast hne := List.getLast_cons hne
      have hstep : scanCycles (i :: j :: js) s0 =
          scanCycles (j :: js) (scanAndUpdateMetrics i.tblOut i.resOut i.cfgSrc s0) := rfl
      rw [hstep, hlast]
      exact ih (scanAndUpdateMetrics i.tblOut i.resOut i.cfgSrc s0) hne

/-- Witness for `idempotent_clearing`: after a cycle that discovered one
device followed by a cycle with an empty snapshot, the inventory has
cardinality 0 (the size of the most recent snapshot), not 1. -/
theorem idempotent_clearing_witness :
    (scanCycles [⟨some "? (192.168.1.5) at 8:aa:bb:cc:dd:ee on en0", some "", .ok ⟨[]⟩⟩,
        ⟨some "", some "", .ok ⟨[]⟩⟩] ∅).card = 0 := by
  have h := idempotent_clearing
    [⟨some "? (192.168.1.5) at 8:aa:bb:cc:dd:ee on en0", some "", .ok ⟨[]⟩⟩,
      ⟨some "", some "", .ok ⟨[]⟩⟩] ∅ (List.cons_ne_nil _ _)
  rw [h]
  decide

/-! ### Neighbor-table parsing -/

lemma getARPTable_filterMap (o : String) :
    getARPTable (some o) =
      ((goSplitLines o).filterMap parseARPLine).foldl
        (fun m kv => mapInsert m kv.1 kv.2) [] := by
  suffices h : ∀ (lines : List String) (m : List (String × String)),
      lines.foldl (fun m line => match parseARPLine line with
        | some (k, v) => mapInsert m k v
        | none => m) m =
      (lines.filterMap parseARPLine).foldl (fun m kv => mapInsert m kv.1 kv.2) m by
    simpa [getARPTable] using h (goSplitLines o) []
  intro lines
  induction lines with
  | nil => exact fun m => rfl
  | cons line rest ih =>
    intro m
    cases hp : parseARPLine line with
    | none => simp [List.filterMap_cons, hp, ih]
    | some kv =>
      obtain ⟨k, v⟩ := kv
      simp [List.filterMap_cons, hp, ih]

/-- C4: line-by-line parsing of the neighbor-table output.  A line with at
least four whitespace-delimited fields contributes the entry mapping its
second field with surrounding parentheses removed to its fourth field; a
line with fewer than four fields contributes nothing and raises no error
(the whole table is the fold of exactly the parseable lines); and the
example line yields the entry `("192.168.1.5", "8:aa:bb:cc:dd:ee")`. -/
theorem neighbor_line_parsing :
    (∀ line : String, 4 ≤ (goFields line).length →
        parseARPLine line =
          some (goTrimParens ((goFields line).getD 1 ""), (goFields line).getD 3 "")) ∧
    (∀ line : String, (goFields line).length < 4 → parseARPLine line = none) ∧
    (∀ o : String, getARPTable (some o) =
        ((goSplitLines o).filterMap parseARPLine).foldl
          (fun m kv => mapInsert m kv.1 kv.2) []) ∧
    getARPTable (some "? (192.168.1.5) at 8:aa:bb:cc:dd:ee on en0 ifscope [ethernet]")
      = [("192.168.1.5", "8:aa:bb:cc:dd:ee")] := by
  refine ⟨?_, ?_, getARPTable_filterMap, by decide⟩
  · intro line h
    rcases hf : goFields line with _ | ⟨a, _ | ⟨b, _ | ⟨c, _ | ⟨d, rest⟩⟩⟩⟩
    · rw [hf] at h; simp at h
    · rw [hf] at h; simp at h
    · rw [hf] at h; simp at h
    · rw [hf] at h; simp at h
    · simp [parseARPLine, hf]
  · intro line h
    rcases hf : goFields line with _ | ⟨a, _ | ⟨b, _ | ⟨c, _ | ⟨d, rest⟩⟩⟩⟩
    · simp [parseARPLine, hf]
    · simp [parseARPLine, hf]
    · simp [parseARPLine, hf]
    · simp [parseARPLine, hf]
    · rw [hf] at h
      simp at h
      omega

/-- Witness for `neighbor_line_parsing`: the example line parses to the
entry `("192.168.1.5", "8:aa:bb:cc:dd:ee")`. -/
theorem neighbor_line_parsing_witness :
    parseARPLine "? (192.168.1.5) at 8:aa:bb:cc:dd:ee on en0 ifscope [ethernet]"
      = some ("192.168.1.5", "8:aa:bb:cc:dd:ee") := by
  have h := neighbor_line_parsing.1
    "? (192.168.1.5) at 8:aa:bb:cc:dd:ee on en0 ifscope [ethernet]" (by decide)
  rw [h]
  decide

end Telemetry
